import Mathlib

/-!
Formal model of the junctionx-uber-challenge driver-recommendation system.

The client-side helpers (time-string conversion, the SchedulePanel selection
state machine, the API response shapes) are embedded from the TypeScript
sources.  The server-side mobility-optimization engine (zone graph, rate
model, DP optimizer, result cache) is not present in the repository sources,
so it is modelled from the specification, as marked on each definition.
-/

deriving instance DecidableEq for Except

namespace UberRec

/-! ### Client API time helpers, from the client api model module -/

/-- Decimal digit character for a value below ten. -/
def digitChar (n : ℕ) : Char := Char.ofNat (48 + n)

/-- Fuel-bounded decimal digit list of a natural number. -/
def natDecimalAux : ℕ → ℕ → List Char
  | 0, _ => []
  | fuel + 1, n =>
    if n < 10 then [digitChar n]
    else natDecimalAux fuel (n / 10) ++ [digitChar (n % 10)]

/-- Decimal string of a natural number, as JavaScript Number.toString yields. -/
def natDecimal (n : ℕ) : String := String.mk (natDecimalAux (n + 1) n)

/-- Decimal string of an integer, as JavaScript Number.toString yields. -/
def jsIntToString (n : ℤ) : String :=
  if n < 0 then "-" ++ natDecimal n.natAbs else natDecimal n.natAbs

/-- JavaScript String.prototype.padStart with target length 2 and pad "0". -/
def padStart2 (s : String) : String :=
  if s.length < 2 then String.mk (List.replicate (2 - s.length) '0') ++ s else s

/-- Embeds hourToTimeString: throws unless 0 <= hour <= 23, else
pads the hour to two digits and appends ":00". -/
def hourToTimeString (hour : ℤ) : Except String String :=
  if hour < 0 ∨ hour > 23 then Except.error "Hour must be between 0 and 23"
  else Except.ok (padStart2 (jsIntToString hour) ++ ":00")

/-- JavaScript String.prototype.split with a one-character separator:
substrings between occurrences of the separator, kept as char lists. -/
def splitChar (sep : Char) : List Char → List (List Char)
  | [] => [[]]
  | c :: rest =>
    if c = sep then [] :: splitChar sep rest
    else
      match splitChar sep rest with
      | [] => [[c]]
      | d :: ds => (c :: d) :: ds

/-- JavaScript parseInt with radix 10 on a char list: skip leading
whitespace, read an optional sign and then leading decimal digits; NaN
(none) when no digit follows. Trailing non-digit characters are ignored. -/
def jsParseIntChars (s : List Char) : Option ℤ :=
  let cs := s.dropWhile Char.isWhitespace
  match cs with
  | '-' :: rest =>
    let ds := rest.takeWhile Char.isDigit
    if ds.isEmpty then none
    else some (-(ds.foldl (fun a c => 10 * a + ((c.toNat : ℤ) - 48)) 0))
  | '+' :: rest =>
    let ds := rest.takeWhile Char.isDigit
    if ds.isEmpty then none
    else some (ds.foldl (fun a c => 10 * a + ((c.toNat : ℤ) - 48)) 0)
  | _ =>
    let ds := cs.takeWhile Char.isDigit
    if ds.isEmpty then none
    else some (ds.foldl (fun a c => 10 * a + ((c.toNat : ℤ) - 48)) 0)

/-- JavaScript parseInt with radix 10 on a string. -/
def jsParseInt (s : String) : Option ℤ := jsParseIntChars s.data

/-- Embeds timeStringToHour: split on ":", require exactly two parts,
parseInt the first part, require it inside [0, 23]; the minutes part is
never inspected. -/
def timeStringToHour (time : String) : Except String ℤ :=
  let parts := splitChar ':' time.data
  if parts.length ≠ 2 then Except.error "Invalid time format. Expected HH:MM"
  else
    match jsParseIntChars parts.headI with
    | none => Except.error "Invalid hour value"
    | some hour =>
      if hour < 0 ∨ hour > 23 then Except.error "Invalid hour value"
      else Except.ok hour

/-! ### SchedulePanel selection state, from the client SchedulePanel component -/

/-- The two selection-index state variables of SchedulePanel. -/
structure PanelState where
  startIndex : Option ℕ
  endIndex : Option ℕ
deriving DecidableEq, Repr

/-- The state before any press: both indices are null. -/
def initialPanelState : PanelState := ⟨none, none⟩

/-- Embeds handleTimeSlotPress: first press sets the start; a second press
after the start sets the end, a second press at or before the start resets
the start; any press with both set resets to a new start. -/
def handleTimeSlotPress (st : PanelState) (index : ℕ) : PanelState :=
  match st.startIndex with
  | none => ⟨some index, none⟩
  | some s =>
    match st.endIndex with
    | none =>
      if index > s then ⟨some s, some index⟩
      else ⟨some index, none⟩
    | some _ => ⟨some index, none⟩

/-- State after a sequence of presses starting from the initial state. -/
def pressSeq (presses : List ℕ) : PanelState :=
  presses.foldl handleTimeSlotPress initialPanelState

/-- Embeds calculateHours: the difference of the indices when both are set,
otherwise the hours slider state.  JavaScript subtraction of the indices is
integer subtraction. -/
def calculateHours (st : PanelState) (hours : ℤ) : ℤ :=
  match st.startIndex, st.endIndex with
  | some s, some e => (e : ℤ) - (s : ℤ)
  | _, _ => hours

/-- The driving-hours slider of SchedulePanel: minimumValue 1,
maximumValue 24, step 1, so the reachable values are exactly the integers
1 through 24. -/
def sliderReachable (v : ℚ) : Prop := ∃ k : ℕ, k ≤ 23 ∧ v = 1 + k

/-- Embeds the nr_hours field submitted by the Get Recommendations handler:
Math.round of the hours slider state.  JavaScript Math.round is
floor of x + 1/2, which is Mathlib round on rationals. -/
def submittedNrHours (hours : ℚ) : ℤ := round hours

/-! ### API response shapes, from the client api model module -/

/-- Embeds the BestZoneResponse interface field by field; null-able fields
become Option. -/
structure BestZoneResponse where
  cluster_id : Option String
  score : ℚ
  expected_earnings : ℚ
  expected_hourly_rate : ℚ
  lat : ℚ
  lon : ℚ
  lat_min : ℚ
  lat_max : ℚ
  lon_min : ℚ
  lon_max : ℚ
  work_hours : ℚ
  path_length : Option ℚ
  optimal_path : Option (List String)
  error : Option String

/-- The declared field names of the BestZoneResponse interface, in source
order. -/
def bestZoneResponseFields : List String :=
  ["cluster_id", "score", "expected_earnings", "expected_hourly_rate",
   "lat", "lon", "lat_min", "lat_max", "lon_min", "lon_max",
   "work_hours", "path_length", "optimal_path", "error"]

/-- Modelled from the spec: the fields the spec promises for the
best-zone-for-a-given-hour output — cluster id, score, expected earnings,
expected hourly rate, centroid (lat/lon), bounding box (lat/lon min/max)
and path length. -/
def specPromisedBestZoneFields : List String :=
  ["cluster_id", "score", "expected_earnings", "expected_hourly_rate",
   "lat", "lon", "lat_min", "lat_max", "lon_min", "lon_max",
   "path_length"]

/-! ### Mobility-optimization engine.

The server-side engine is not among the repository sources (only its client
is), so every definition in this section is modelled from the spec, as its
doc comment states. -/

/-- Modelled from the spec: the per-city Zone Graph — the set of demand
zones (as dense ids) and the hourly trip counts for each ordered zone pair.
The missing source is the server zone-graph module. -/
structure ZoneGraph where
  zones : Finset ℕ
  counts : ℕ → ℕ → ℕ → ℕ

/-- Modelled from the spec: the Laplace smoothing constant ε, a small fixed
constant, e.g. 1.0. -/
def laplaceEps : ℚ := 1

/-- Modelled from the spec: total outgoing trip count of a zone at an hour,
used for probability normalization. -/
def totalOut (g : ZoneGraph) (i h : ℕ) : ℕ := ∑ j ∈ g.zones, g.counts i j h

/-- Modelled from the spec: Laplace-smoothed transition probability
P(i→j | hour) = (count + ε) / (total_out + ε · number of zones).
The missing source is the server rate-model module. -/
def transitionProb (g : ZoneGraph) (i j h : ℕ) : ℚ :=
  ((g.counts i j h : ℚ) + laplaceEps) /
    ((totalOut g i h : ℚ) + laplaceEps * g.zones.card)

/-- Modelled from the spec: the inputs of one DP solve — the city's graph,
the immediate earning rate per (origin, destination, hour), the raw trip
ticks per ordered zone pair, the per-step discount factor and the shift's
start hour. -/
structure DPModel where
  graph : ZoneGraph
  rate : ℕ → ℕ → ℕ → ℚ
  travelTicks : ℕ → ℕ → ℕ
  gamma : ℚ
  startHour : ℕ

/-- Twelve 5-minute ticks per hour. -/
def ticksPerHour : ℕ := 12

/-- Modelled from the spec: rounded-up travel+wait ticks of a transition;
every transition strictly decreases the remaining ticks, so at least 1. -/
def tripTicks (m : DPModel) (z j : ℕ) : ℕ := max 1 (m.travelTicks z j)

/-- Hour of day after a number of elapsed ticks from the start hour. -/
def hourAt (startHour elapsed : ℕ) : ℕ := (startHour + elapsed / ticksPerHour) % 24

/-- Modelled from the spec: a work duration in hours converted to a tick
budget. -/
def budgetTicks (durationHours : ℕ) : ℕ := ticksPerHour * durationHours

/-- Start-zone argument of solve: a pinned zone or "best". -/
inductive StartSpec where
  | zone (z : ℕ)
  | best
deriving DecidableEq

/-- Modelled from the spec: the engine error taxonomy entries a solve can
surface. -/
inductive SolveError where
  | DataUnavailable
  | NoReachableZones
deriving DecidableEq

/-- Maximum of a list of values, 0 when the list is empty — the value of a
state with no reachable destination. -/
def bestOf : List ℚ → ℚ
  | [] => 0
  | x :: xs => xs.foldl max x

/-- Modelled from the spec: the DP value table filled by backward
induction.  V[0][z] = 0; V[t][z] is the maximum over reachable destination
zones j (positive transition probability at the hour of day corresponding
to the elapsed time, trip ticks within the remaining t) of the immediate
earnings plus the discounted value of the successor state, and 0 when no
destination is reachable.  The missing source is the server DP-optimizer
module. -/
def value (m : DPModel) (B : ℕ) (t : ℕ) (z : ℕ) : ℚ :=
  match t with
  | 0 => 0
  | s + 1 =>
    let hour := hourAt m.startHour (B - (s + 1))
    let cand := (m.graph.zones.filter
      (fun j => 0 < transitionProb m.graph z j hour ∧ tripTicks m z j ≤ s + 1)).sort (· ≤ ·)
    bestOf (cand.map (fun j =>
      m.rate z j hour + m.gamma * value m B (s + 1 - tripTicks m z j) j))
termination_by t
decreasing_by
  have h1 : 1 ≤ tripTicks m z j := le_max_left 1 (m.travelTicks z j)
  omega

/-- Modelled from the spec: pick the zone maximizing the full-budget value,
keeping the earlier (lexicographically smaller, since the list is sorted)
zone on ties. -/
def argmaxZone (m : DPModel) (B : ℕ) (zs : List ℕ) : Option (ℕ × ℚ) :=
  zs.foldl (fun acc j =>
    match acc with
    | none => some (j, value m B B j)
    | some (bz, bv) =>
      if bv < value m B B j then some (j, value m B B j) else some (bz, bv))
    none

/-- Modelled from the spec: solve(city, startZone | best, startHour,
durationHours, date) — fails with NoReachableZones only on an empty city
graph, otherwise the expected earnings of the DP from the start zone (or
from the best zone over all zones) together with that start zone. -/
def solve (m : DPModel) (start : StartSpec) (durationHours : ℕ) :
    Except SolveError (ℚ × ℕ) :=
  let B := budgetTicks durationHours
  match start with
  | StartSpec.zone z =>
    if m.graph.zones = ∅ then Except.error SolveError.NoReachableZones
    else Except.ok (value m B B z, z)
  | StartSpec.best =>
    match argmaxZone m B (m.graph.zones.sort (· ≤ ·)) with
    | none => Except.error SolveError.NoReachableZones
    | some (bz, bv) => Except.ok (bv, bz)

/-- Expected earnings of a solve result, 0 on error. -/
def okEarnings : Except SolveError (ℚ × ℕ) → ℚ
  | Except.ok (e, _) => e
  | Except.error _ => 0

/-- Modelled from the spec: the full solve-parameter tuple that keys the
result cache. -/
structure SolveParams where
  city : ℕ
  start : StartSpec
  startHour : ℕ
  durationHours : ℕ
  date : ℕ
deriving DecidableEq

/-- Modelled from the spec: the bare (cache-less) optimizer — the world
function resolves a parameter tuple to the city's graph and the
date/hour-dependent signals baked into a DPModel. -/
def bareSolve (w : SolveParams → DPModel) (p : SolveParams) :
    Except SolveError (ℚ × ℕ) :=
  solve (w p) p.start p.durationHours

/-- Modelled from the spec: the two cache tiers — process-local map and
shared TTL cache — as association lists. -/
structure CacheState (K V : Type) where
  tier1 : List (K × V)
  tier2 : List (K × V)

/-- First value stored under a key in one tier. -/
def cacheLookup {K V : Type} [DecidableEq K] (l : List (K × V)) (k : K) :
    Option V :=
  (l.find? (fun kv => decide (kv.1 = k))).map Prod.snd

/-- Modelled from the spec: the cache-wrapped computation — check tier 1,
then tier 2; on a miss in both, compute and write through to both tiers
before returning. -/
def cachedCompute {K V : Type} [DecidableEq K] (f : K → V)
    (st : CacheState K V) (k : K) : V × CacheState K V :=
  match cacheLookup st.tier1 k with
  | some v => (v, st)
  | none =>
    match cacheLookup st.tier2 k with
    | some v => (v, st)
    | none =>
      let v := f k
      (v, ⟨(k, v) :: st.tier1, (k, v) :: st.tier2⟩)

/-- Every entry stored in either tier equals the bare computation at its
key — the invariant the write-through discipline maintains. -/
def CacheConsistent {K V : Type} [DecidableEq K] (f : K → V)
    (st : CacheState K V) : Prop :=
  (∀ k v, cacheLookup st.tier1 k = some v → v = f k) ∧
  (∀ k v, cacheLookup st.tier2 k = some v → v = f k)

/-- Both selection indices set implies start strictly before end. -/
def PanelInv (st : PanelState) : Prop :=
  ∀ s e, st.startIndex = some s → st.endIndex = some e → s < e

/-! ### Concrete instances used by the witnesses -/

/-- The spec's two-zone scenario graph: zones 0 and 1, ten trips 0→1 at
hour 8, no other observed trips. -/
def exGraph : ZoneGraph :=
  ⟨{0, 1}, fun i j h => if i = 0 ∧ j = 1 ∧ h = 8 then 10 else 0⟩

/-- A concrete DP model over the two-zone graph: flat rate 2, one-hour
trips, discount 0.95, start hour 8. -/
def exModel : DPModel :=
  ⟨exGraph, fun _ _ _ => 2, fun _ _ => 12, 19 / 20, 8⟩

/-- A world resolving every parameter tuple to the concrete model. -/
def exWorld : SolveParams → DPModel := fun _ => exModel

/-- A concrete solve-parameter tuple. -/
def exParams : SolveParams := ⟨0, StartSpec.best, 8, 1, 20251011⟩

end UberRec

namespace UberRec

/-! ## Supporting lemmas -/

theorem le_foldl_max (x : ℚ) (l : List ℚ) : x ≤ l.foldl max x := by
  induction l generalizing x with
  | nil => exact le_refl x
  | cons a l ih => exact le_trans (le_max_left x a) (ih (max x a))

theorem mem_le_foldl_max {a : ℚ} {l : List ℚ} (x : ℚ) (h : a ∈ l) :
    a ≤ l.foldl max x := by
  induction l generalizing x with
  | nil => cases h
  | cons b l ih =>
    rcases List.mem_cons.mp h with hb | hl
    · subst hb
      exact le_trans (le_max_right x a) (le_foldl_max (max x a) l)
    · exact ih (max x b) hl

theorem foldl_max_le {b : ℚ} {l : List ℚ} (x : ℚ) (hx : x ≤ b)
    (hl : ∀ a ∈ l, a ≤ b) : l.foldl max x ≤ b := by
  induction l generalizing x with
  | nil => exact hx
  | cons a l ih =>
    exact ih (max x a) (max_le hx (hl a (List.mem_cons_self a l)))
      (fun c hc => hl c (List.mem_cons_of_mem a hc))

theorem bestOf_nonneg {l : List ℚ} (h : ∀ a ∈ l, 0 ≤ a) : 0 ≤ bestOf l := by
  cases l with
  | nil => exact le_refl 0
  | cons x xs =>
    exact le_trans (h x (List.mem_cons_self x xs)) (le_foldl_max x xs)

theorem le_bestOf {a : ℚ} {l : List ℚ} (h : a ∈ l) : a ≤ bestOf l := by
  cases l with
  | nil => cases h
  | cons x xs =>
    rcases List.mem_cons.mp h with hx | hxs
    · subst hx; exact le_foldl_max a xs
    · exact mem_le_foldl_max x hxs

theorem bestOf_le {l : List ℚ} {b : ℚ} (h0 : 0 ≤ b) (h : ∀ a ∈ l, a ≤ b) :
    bestOf l ≤ b := by
  cases l with
  | nil => exact h0
  | cons x xs =>
    exact foldl_max_le x (h x (List.mem_cons_self x xs))
      (fun c hc => h c (List.mem_cons_of_mem x hc))

theorem bestOf_mono {l1 l2 : List ℚ} (h0 : 0 ≤ bestOf l2)
    (h : ∀ a ∈ l1, ∃ b ∈ l2, a ≤ b) : bestOf l1 ≤ bestOf l2 := by
  refine bestOf_le h0 (fun a ha => ?_)
  obtain ⟨b, hb, hab⟩ := h a ha
  exact le_trans hab (le_bestOf hb)

theorem value_zero (m : DPModel) (B : ℕ) (z : ℕ) : value m B 0 z = 0 := by
  rw [value]

theorem value_succ (m : DPModel) (B s z : ℕ) :
    value m B (s + 1) z =
      bestOf (((m.graph.zones.filter
        (fun j => 0 < transitionProb m.graph z j (hourAt m.startHour (B - (s + 1))) ∧
          tripTicks m z j ≤ s + 1)).sort (· ≤ ·)).map (fun j =>
        m.rate z j (hourAt m.startHour (B - (s + 1))) +
          m.gamma * value m B (s + 1 - tripTicks m z j) j)) := by
  rw [value]

theorem value_nonneg (m : DPModel) (hr : ∀ a b h, 0 ≤ m.rate a b h)
    (hg : 0 ≤ m.gamma) : ∀ t B z, 0 ≤ value m B t z := by
  intro t
  induction t using Nat.strong_induction_on with
  | _ t ih =>
    intro B z
    cases t with
    | zero => rw [value_zero]
    | succ s =>
      rw [value_succ]
      refine bestOf_nonneg (fun a ha => ?_)
      simp only [List.mem_map] at ha
      obtain ⟨j, hj, rfl⟩ := ha
      have h1 : 1 ≤ tripTicks m z j := le_max_left 1 (m.travelTicks z j)
      have h2 := ih (s + 1 - tripTicks m z j) (by omega) B j
      exact add_nonneg (hr z j _) (mul_nonneg hg h2)

theorem value_mono (m : DPModel) (hr : ∀ a b h, 0 ≤ m.rate a b h)
    (hg : 0 ≤ m.gamma) :
    ∀ t1 t2 B1 B2 z, t1 ≤ t2 → t1 ≤ B1 → t2 ≤ B2 → B1 + t2 = B2 + t1 →
      value m B1 t1 z ≤ value m B2 t2 z := by
  intro t1
  induction t1 using Nat.strong_induction_on with
  | _ t1 ih =>
    intro t2 B1 B2 z h12 hB1 hB2 hBt
    cases t1 with
    | zero =>
      rw [value_zero]
      exact value_nonneg m hr hg t2 B2 z
    | succ s1 =>
      obtain ⟨s2, rfl⟩ : ∃ s2, t2 = s2 + 1 := ⟨t2 - 1, by omega⟩
      have hel : B1 - (s1 + 1) = B2 - (s2 + 1) := by omega
      rw [value_succ, value_succ, hel]
      have hnn : ∀ a ∈ ((m.graph.zones.filter
          (fun j => 0 < transitionProb m.graph z j (hourAt m.startHour (B2 - (s2 + 1))) ∧
            tripTicks m z j ≤ s2 + 1)).sort (· ≤ ·)).map (fun j =>
          m.rate z j (hourAt m.startHour (B2 - (s2 + 1))) +
            m.gamma * value m B2 (s2 + 1 - tripTicks m z j) j), 0 ≤ a := by
        intro a ha
        simp only [List.mem_map] at ha
        obtain ⟨j, hj, rfl⟩ := ha
        exact add_nonneg (hr z j _)
          (mul_nonneg hg (value_nonneg m hr hg _ B2 j))
      refine bestOf_mono (bestOf_nonneg hnn) (fun a ha => ?_)
      simp only [List.mem_map] at ha
      obtain ⟨j, hj, rfl⟩ := ha
      rw [Finset.mem_sort, Finset.mem_filter] at hj
      obtain ⟨hjz, hjp, hjt⟩ := hj
      have h1 : 1 ≤ tripTicks m z j := le_max_left 1 (m.travelTicks z j)
      refine ⟨m.rate z j (hourAt m.startHour (B2 - (s2 + 1))) +
        m.gamma * value m B2 (s2 + 1 - tripTicks m z j) j, ?_, ?_⟩
      · refine List.mem_map.mpr ⟨j, ?_, rfl⟩
        rw [Finset.mem_sort, Finset.mem_filter]
        exact ⟨hjz, hjp, by omega⟩
      · refine add_le_add_left (mul_le_mul_of_nonneg_left ?_ hg) _
        exact ih (s1 + 1 - tripTicks m z j) (by omega)
          (s2 + 1 - tripTicks m z j) B1 B2 j (by omega) (by omega) (by omega)
          (by omega)

theorem argmax_foldl_isSome (m : DPModel) (B : ℕ) (l : List ℕ)
    (acc : Option (ℕ × ℚ)) (h : acc.isSome) :
    (l.foldl (fun acc j =>
      match acc with
      | none => some (j, value m B B j)
      | some (bz, bv) =>
        if bv < value m B B j then some (j, value m B B j) else some (bz, bv))
      acc).isSome := by
  induction l generalizing acc with
  | nil => exact h
  | cons a l ih =>
    refine ih _ ?_
    rcases acc with _ | ⟨bz, bv⟩
    · simp
    · by_cases hlt : bv < value m B B a <;> simp [hlt]

theorem argmaxZone_eq_none_iff (m : DPModel) (B : ℕ) (zs : List ℕ) :
    argmaxZone m B zs = none ↔ zs = [] := by
  constructor
  · intro h
    cases zs with
    | nil => rfl
    | cons a l =>
      have h1 : (argmaxZone m B (a :: l)).isSome := by
        unfold argmaxZone
        rw [List.foldl_cons]
        exact argmax_foldl_isSome m B l _ (by simp)
      rw [h] at h1
      cases h1
  · intro h
    subst h
    rfl

theorem cacheLookup_cons {K V : Type} [DecidableEq K] (a : K) (b : V)
    (l : List (K × V)) (k : K) :
    cacheLookup ((a, b) :: l) k = if a = k then some b else cacheLookup l k := by
  by_cases hak : a = k <;> simp [cacheLookup, List.find?_cons, hak]

theorem cachedCompute_correct {K V : Type} [DecidableEq K] (f : K → V)
    (st : CacheState K V) (k : K) (h : CacheConsistent f st) :
    (cachedCompute f st k).1 = f k ∧ CacheConsistent f (cachedCompute f st k).2 := by
  obtain ⟨ht1, ht2⟩ := h
  unfold cachedCompute
  cases h1 : cacheLookup st.tier1 k with
  | some v => exact ⟨ht1 k v h1, ht1, ht2⟩
  | none =>
    cases h2 : cacheLookup st.tier2 k with
    | some v => exact ⟨ht2 k v h2, ht1, ht2⟩
    | none =>
      refine ⟨rfl, ?_, ?_⟩
      · intro k2 v hv
        rw [cacheLookup_cons] at hv
        by_cases hk : k = k2
        · subst hk
          simp at hv
          exact hv.symm
        · simp [hk] at hv
          exact ht1 k2 v hv
      · intro k2 v hv
        rw [cacheLookup_cons] at hv
        by_cases hk : k = k2
        · subst hk
          simp at hv
          exact hv.symm
        · simp [hk] at hv
          exact ht2 k2 v hv

theorem handlePress_preserves (st : PanelState) (_hinv : PanelInv st) (i : ℕ) :
    PanelInv (handleTimeSlotPress st i) := by
  intro s e hs he
  unfold handleTimeSlotPress at hs he
  rcases hst : st.startIndex with _ | s0 <;> rw [hst] at hs he
  · simp at he
  · rcases hen : st.endIndex with _ | e0 <;> rw [hen] at hs he
    · by_cases hgt : i > s0
      · simp [hgt] at hs he
        omega
      · simp [hgt] at he
    · simp at he

theorem pressSeq_inv (presses : List ℕ) : PanelInv (pressSeq presses) := by
  unfold pressSeq
  have hgen : ∀ (l : List ℕ) (st : PanelState), PanelInv st →
      PanelInv (l.foldl handleTimeSlotPress st) := by
    intro l
    induction l with
    | nil => intro st h; exact h
    | cons a l ih =>
      intro st h
      exact ih (handleTimeSlotPress st a) (handlePress_preserves st h a)
  refine hgen presses initialPanelState ?_
  intro s e hs he
  cases hs

/-! ## Claim theorems -/

/-- C1: for every city, every zone i of the city and every hour, the
Laplace-smoothed transition probabilities P(i→j | hour) summed over all
destination zones j of the city equal 1; in this exact-rational model the
sum is exactly 1, which implies the ±ε floating-point form. -/
theorem transitionProb_sum_one (g : ZoneGraph) (i h : ℕ) (hi : i ∈ g.zones) :
    ∑ j ∈ g.zones, transitionProb g i j h = 1 := by
  have hcard : 0 < (g.zones.card : ℚ) := by
    exact_mod_cast Finset.card_pos.mpr ⟨i, hi⟩
  have hden : ((totalOut g i h : ℚ) + laplaceEps * g.zones.card) ≠ 0 := by
    have h0 : (0 : ℚ) ≤ (totalOut g i h : ℚ) := Nat.cast_nonneg _
    have hpos : (0 : ℚ) < (totalOut g i h : ℚ) + laplaceEps * g.zones.card := by
      rw [laplaceEps, one_mul]
      exact add_pos_of_nonneg_of_pos h0 hcard
    exact ne_of_gt hpos
  unfold transitionProb
  rw [← Finset.sum_div, div_eq_one_iff_eq hden]
  rw [Finset.sum_add_distrib, Finset.sum_const]
  unfold totalOut
  push_cast
  simp only [nsmul_eq_mul, laplaceEps]
  ring

/-- Witness for C1 at the concrete two-zone graph and zone 0, hour 8. -/
theorem transitionProb_sum_one_witness :
    0 ∈ exGraph.zones ∧ ∑ j ∈ exGraph.zones, transitionProb exGraph 0 j 8 = 1 :=
  ⟨by decide, transitionProb_sum_one exGraph 0 8 (by decide)⟩

/-- C2: for every solve of the optimizer (every model, budget and zone),
the DP value table satisfies the terminal condition: at zero ticks
remaining the value of every zone is zero. -/
theorem dp_terminal_condition (m : DPModel) (B : ℕ) (z : ℕ) :
    value m B 0 z = 0 := by
  rw [value]

/-- C3: for a fixed city model, fixed start zone, fixed start hour and
date, the expected earnings returned by solve are monotone non-decreasing
in the work-duration budget. -/
theorem solve_earnings_monotone (m : DPModel) (z : ℕ) (d1 d2 : ℕ)
    (hr : ∀ a b h, 0 ≤ m.rate a b h) (hg : 0 ≤ m.gamma) (hd : d1 ≤ d2) :
    okEarnings (solve m (StartSpec.zone z) d1) ≤
      okEarnings (solve m (StartSpec.zone z) d2) := by
  by_cases he : m.graph.zones = ∅
  · simp [solve, he, okEarnings]
  · simp only [solve, he, if_false, okEarnings, budgetTicks]
    exact value_mono m hr hg (ticksPerHour * d1) (ticksPerHour * d2) _ _ z
      (Nat.mul_le_mul_left _ hd) le_rfl le_rfl (by omega)

/-- Witness for C3 at the concrete model, start zone 0, 1 versus 2 hours. -/
theorem solve_earnings_monotone_witness :
    okEarnings (solve exModel (StartSpec.zone 0) 1) ≤
      okEarnings (solve exModel (StartSpec.zone 0) 2) :=
  solve_earnings_monotone exModel 0 1 2 (fun _ _ _ => by norm_num [exModel])
    (by norm_num [exModel]) (by norm_num)

/-- C4: for every solve-parameter tuple and every consistent cache state,
the cache-wrapped optimizer returns exactly the bare optimizer's result,
consistency is preserved, and any two (possibly different) consistent cache
states — including the empty one, i.e. a disabled cache — give identical
results. -/
theorem cache_transparent (w : SolveParams → DPModel)
    (st : CacheState SolveParams (Except SolveError (ℚ × ℕ))) (p : SolveParams)
    (h : CacheConsistent (bareSolve w) st) :
    (cachedCompute (bareSolve w) st p).1 = bareSolve w p ∧
    CacheConsistent (bareSolve w) (cachedCompute (bareSolve w) st p).2 ∧
    ∀ st2, CacheConsistent (bareSolve w) st2 →
      (cachedCompute (bareSolve w) st2 p).1 = (cachedCompute (bareSolve w) st p).1 := by
  obtain ⟨h1, h2⟩ := cachedCompute_correct (bareSolve w) st p h
  refine ⟨h1, h2, fun st2 hc2 => ?_⟩
  rw [(cachedCompute_correct (bareSolve w) st2 p hc2).1, h1]

/-- Witness for C4 at the concrete world, the empty cache and a concrete
parameter tuple. -/
theorem cache_transparent_witness :
    (cachedCompute (bareSolve exWorld) ⟨[], []⟩ exParams).1 = bareSolve exWorld exParams :=
  (cache_transparent exWorld ⟨[], []⟩ exParams
    ⟨fun k v hv => by simp [cacheLookup] at hv,
     fun k v hv => by simp [cacheLookup] at hv⟩).1

/-- C5: solve fails with NoReachableZones exactly when the city's zone
graph is empty, and for every non-empty graph it returns a result. -/
theorem solve_noReachableZones_iff (m : DPModel) (start : StartSpec) (d : ℕ) :
    (solve m start d = Except.error SolveError.NoReachableZones ↔
      m.graph.zones = ∅) ∧
    (m.graph.zones ≠ ∅ → ∃ r, solve m start d = Except.ok r) := by
  cases start with
  | zone z =>
    by_cases he : m.graph.zones = ∅
    · simp [solve, he]
    · simp [solve, he]
  | best =>
    by_cases he : m.graph.zones = ∅
    · have hsort : m.graph.zones.sort (· ≤ ·) = [] := by
        rw [he]
        exact Finset.sort_empty _
      simp [solve, hsort, argmaxZone, he]
    · have hcard : m.graph.zones.card ≠ 0 := by
        simpa [Finset.card_eq_zero] using he
      have hsortne : m.graph.zones.sort (· ≤ ·) ≠ [] := by
        intro hnil
        have hlen : (m.graph.zones.sort (· ≤ ·)).length = m.graph.zones.card :=
          Finset.length_sort _
        rw [hnil] at hlen
        exact hcard hlen.symm
      obtain ⟨r, hr⟩ : ∃ r,
          argmaxZone m (budgetTicks d) (m.graph.zones.sort (· ≤ ·)) = some r := by
        cases har : argmaxZone m (budgetTicks d) (m.graph.zones.sort (· ≤ ·)) with
        | none => exact absurd ((argmaxZone_eq_none_iff m _ _).mp har) hsortne
        | some r => exact ⟨r, rfl⟩
      obtain ⟨bz, bv⟩ := r
      refine ⟨⟨fun hsolve => ?_, fun hempty => absurd hempty he⟩,
        fun _ => ⟨(bv, bz), ?_⟩⟩
      · simp [solve, hr] at hsolve
      · simp [solve, hr]

/-- Witness for C5 at the concrete model with best-zone start and 1 hour. -/
theorem solve_noReachableZones_iff_witness :
    ∃ r, solve exModel StartSpec.best 1 = Except.ok r :=
  (solve_noReachableZones_iff exModel StartSpec.best 1).2 (by decide)

/-- C6 counterexample: the BestZoneResponse interface does not carry
exactly the spec-promised fields — work_hours is declared but not
promised. -/
theorem bestZoneResponse_fields_not_spec_exact :
    bestZoneResponseFields ≠ specPromisedBestZoneFields ∧
    "work_hours" ∈ bestZoneResponseFields ∧
    "work_hours" ∉ specPromisedBestZoneFields := by decide

/-- C6 amended: the BestZoneResponse interface carries every field the
spec promises, and the only extra declared fields are work_hours,
optimal_path and error. -/
theorem bestZoneResponse_fields_superset_spec :
    (∀ f ∈ specPromisedBestZoneFields, f ∈ bestZoneResponseFields) ∧
    (∀ f ∈ bestZoneResponseFields,
      f ∈ specPromisedBestZoneFields ∨ f ∈ ["work_hours", "optimal_path", "error"]) := by
  decide

/-- Witness for the amended C6 at the score field. -/
theorem bestZoneResponse_fields_superset_spec_witness :
    "score" ∈ bestZoneResponseFields :=
  bestZoneResponse_fields_superset_spec.1 "score" (by decide)

/-- C7: every value the driving-hours slider can reach is an integer 1..24,
and the nr_hours value submitted by the Get Recommendations handler is that
integer (Math.round is the identity on it). -/
theorem schedulePanel_nrHours_integer (v : ℚ) (h : sliderReachable v) :
    (submittedNrHours v : ℚ) = v ∧ 1 ≤ submittedNrHours v ∧
      submittedNrHours v ≤ 24 := by
  obtain ⟨k, hk, rfl⟩ := h
  have hcast : (1 + (k : ℚ)) = ((1 + (k : ℤ) : ℤ) : ℚ) := by push_cast; ring
  have hround : submittedNrHours (1 + (k : ℚ)) = 1 + (k : ℤ) := by
    rw [submittedNrHours, hcast, round_intCast]
  refine ⟨?_, ?_, ?_⟩
  · rw [hround]; push_cast; ring
  · rw [hround]; omega
  · rw [hround]; omega

/-- Witness for C7 at slider value 5. -/
theorem schedulePanel_nrHours_integer_witness :
    (submittedNrHours 5 : ℚ) = 5 ∧ 1 ≤ submittedNrHours 5 ∧
      submittedNrHours 5 ≤ 24 :=
  schedulePanel_nrHours_integer 5 ⟨4, by norm_num, by norm_num⟩

/-- C8: for every hour 0..23, converting to a time string and back returns
the hour, and neither conversion throws on the composition. -/
theorem timeString_hour_roundtrip (h : ℤ) (h0 : 0 ≤ h) (h1 : h ≤ 23) :
    (hourToTimeString h).bind timeStringToHour = Except.ok h := by
  interval_cases h <;> decide

/-- Witness for C8 at hour 8. -/
theorem timeString_hour_roundtrip_witness :
    (hourToTimeString 8).bind timeStringToHour = Except.ok 8 :=
  timeString_hour_roundtrip 8 (by decide) (by decide)

/-- C9: timeStringToHour throws exactly when the split on ":" does not
give two parts, or parseInt of the first part is NaN or outside [0, 23];
otherwise it returns the parsed hour.  The minutes part is never
validated: "08:xx" succeeds with 8. -/
theorem timeStringToHour_error_characterization :
    (∀ s : String,
      (∃ msg, timeStringToHour s = Except.error msg) ↔
        ((splitChar ':' s.data).length ≠ 2 ∨
          jsParseIntChars (splitChar ':' s.data).headI = none ∨
          ∃ h : ℤ, jsParseIntChars (splitChar ':' s.data).headI = some h ∧
            (h < 0 ∨ h > 23))) ∧
    (∀ (s : String) (h : ℤ),
      (splitChar ':' s.data).length = 2 →
      jsParseIntChars (splitChar ':' s.data).headI = some h →
      0 ≤ h → h ≤ 23 → timeStringToHour s = Except.ok h) ∧
    timeStringToHour "08:xx" = Except.ok 8 := by
  refine ⟨?_, ?_, by decide⟩
  · intro s
    unfold timeStringToHour
    by_cases hl : (splitChar ':' s.data).length = 2
    · cases hp : jsParseIntChars (splitChar ':' s.data).headI with
      | none => simp [hl, hp]
      | some hour =>
        by_cases hrange : hour < 0 ∨ hour > 23
        · simp only [hl, hp]
          simp [hrange]
        · simp only [hl, hp]
          simp [hrange]
    · simp [hl]
  · intro s h hl hp h0 h1
    have hnr : ¬(h < 0 ∨ h > 23) := by omega
    unfold timeStringToHour
    simp [hl, hp, hnr]

/-- Witness for C9: a well-formed hour with unvalidated minutes parses. -/
theorem timeStringToHour_error_characterization_witness :
    timeStringToHour "07:30" = Except.ok 7 :=
  timeStringToHour_error_characterization.2.1 "07:30" 7 (by decide) (by decide)
    (by decide) (by decide)

/-- C10: after any sequence of time-slot presses from the initial state,
whenever both selection indices are set the start index is strictly below
the end index, so calculateHours is strictly positive whatever the slider
state. -/
theorem schedulePanel_start_lt_end (presses : List ℕ) (s e : ℕ) (hv : ℤ)
    (hs : (pressSeq presses).startIndex = some s)
    (he : (pressSeq presses).endIndex = some e) :
    s < e ∧ 0 < calculateHours (pressSeq presses) hv := by
  have h1 : s < e := pressSeq_inv presses s e hs he
  refine ⟨h1, ?_⟩
  unfold calculateHours
  simp only [hs, he]
  omega

/-- Witness for C10 at the press sequence [2, 5]. -/
theorem schedulePanel_start_lt_end_witness :
    2 < 5 ∧ 0 < calculateHours (pressSeq [2, 5]) 0 :=
  schedulePanel_start_lt_end [2, 5] 2 5 0 (by decide) (by decide)

end UberRec
